import Mathlib

/-!
Verification of the target-collection data model and corpus parsers of the
Bella repository (`tdparse/parsers.py`, `bella/tokenisers.py`).

Strings are modelled as `List Char`.  Python string primitives used by the
parsers (`str.lower`, `str.strip`, `str.split`, `str.replace`, slicing with
negative indices, `str.rstrip`/`str.lstrip` with a character set, `int(...)`)
are embedded as executable functions below.  `re.finditer` is embedded for the
pattern shapes the parsers actually build: a literal string, optionally
bracketed by a single non-word-character class on either side (the target
string itself is treated as a literal; targets containing regex
metacharacters fall outside this model).
-/

namespace Bella

/-- Python `str.lower()` (ASCII model). -/
def lowerStr (s : List Char) : List Char := s.map Char.toLower

/-- Python regex word character, `\w` (ASCII model: `[a-zA-Z0-9_]`). -/
def isWordChar (c : Char) : Bool := c.isAlphanum || c = '_'

/-- Python `str.strip()` with no argument: remove leading and trailing
whitespace. -/
def pyStrip (s : List Char) : List Char :=
  ((s.dropWhile Char.isWhitespace).reverse.dropWhile Char.isWhitespace).reverse

/-- Python `str.split()` with no argument: split on runs of whitespace,
dropping empty chunks. -/
def pySplitWs (s : List Char) : List (List Char) :=
  (s.splitOnP Char.isWhitespace).filter (fun w => w ≠ [])

/-- Helper for `pyReplace`, recursing on a fuel bound (one unit per
consumed character, so the input's length suffices). -/
def pyReplaceFuel : Nat → List Char → List Char → List Char → List Char
  | 0, s, _, _ => s
  | _ + 1, [], _, _ => []
  | fuel + 1, c :: rest, pat, rep =>
    if pat ≠ [] ∧ pat.isPrefixOf (c :: rest) then
      rep ++ pyReplaceFuel fuel ((c :: rest).drop pat.length) pat rep
    else
      c :: pyReplaceFuel fuel rest pat rep

/-- Python `str.replace(pat, rep)`: replace each non-overlapping occurrence of
`pat`, scanning left to right (the parsers only call it with non-empty
`pat`). -/
def pyReplace (s pat rep : List Char) : List Char :=
  pyReplaceFuel s.length s pat rep

/-- Python `str.rstrip(chars)`: remove trailing characters drawn from the
set `cs` (a character set, not a suffix). -/
def pyRstrip (s : List Char) (cs : List Char) : List Char :=
  (s.reverse.dropWhile (fun c => cs.contains c)).reverse

/-- Python `str.lstrip(chars)`: remove leading characters drawn from the
set `cs`. -/
def pyLstrip (s : List Char) (cs : List Char) : List Char :=
  s.dropWhile (fun c => cs.contains c)

/-- Helper for `pyParseInt`: a non-empty all-digit string to its value. -/
def digitsToNat (ds : List Char) : Option Nat :=
  if ds ≠ [] ∧ ds.all Char.isDigit then
    some (ds.foldl (fun a c => a * 10 + (c.toNat - 48)) 0)
  else none

/-- Python `int(line)` on a string (ASCII model: optional sign then decimal
digits, surrounding whitespace ignored); `none` models the `ValueError`. -/
def pyParseInt (s : List Char) : Option Int :=
  match pyStrip s with
  | [] => none
  | c :: rest =>
    if c = '-' then (digitsToNat rest).map (fun n => -(n : Int))
    else if c = '+' then (digitsToNat rest).map (fun n => (n : Int))
    else (digitsToNat (c :: rest)).map (fun n => (n : Int))

/-- The substring of `s` at character offsets `[a, b)` (truncating at the
ends, as `List.drop`/`List.take` do). -/
def subAt (s : List Char) (a b : Nat) : List Char := (s.drop a).take (b - a)

/-- Python slicing `s[a : b]` with step 1: negative indices count from the
end, and both ends are clamped to the string. -/
def pySlice (s : List Char) (a b : Int) : List Char :=
  let n : Int := s.length
  let a' : Int := if a < 0 then max (a + n) 0 else min a n
  let b' : Int := if b < 0 then max (b + n) 0 else min b n
  if a' < b' then (s.drop a'.toNat).take (b' - a').toNat else []

/-- The regex pattern shapes built by the parsers: a literal `lit`,
optionally preceded (`pre`) and/or followed (`post`) by one `[^\w]`
character. -/
structure Pat where
  pre : Bool
  lit : List Char
  post : Bool
deriving DecidableEq

/-- Length of any match of the pattern. -/
def Pat.len (p : Pat) : Nat :=
  p.lit.length + (if p.pre then 1 else 0) + (if p.post then 1 else 0)

/-- Helper: the literal plus the optional trailing `[^\w]` char matches at
the front of `r`. -/
def litPostMatch (lit : List Char) (post : Bool) (r : List Char) : Bool :=
  lit.isPrefixOf r &&
    (if post then
      match r.drop lit.length with
      | [] => false
      | c :: _ => !isWordChar c
    else true)

/-- The pattern matches at the front of `r`. -/
def Pat.matchFront (p : Pat) (r : List Char) : Bool :=
  if p.pre then
    match r with
    | [] => false
    | c :: r' => !isWordChar c && litPostMatch p.lit p.post r'
  else litPostMatch p.lit p.post r

/-- The pattern matches at offset `i` of `txt`. -/
def Pat.matchAt (p : Pat) (txt : List Char) (i : Nat) : Bool :=
  p.matchFront (txt.drop i)

/-- Helper for `patScan`, recursing on a fuel bound (one unit per scan
position, so `txt.length + 1 - i` suffices). -/
def patScanFuel (p : Pat) (txt : List Char) : Nat → Nat → List (Nat × Nat)
  | 0, _ => []
  | fuel + 1, i =>
    if txt.length < i then []
    else if p.matchAt txt i then
      (i, i + p.len) :: patScanFuel p txt fuel (i + max p.len 1)
    else if i = txt.length then []
    else patScanFuel p txt fuel (i + 1)

/-- Python `re.finditer(p, txt)` for the pattern shapes of `Pat`:
left-to-right, non-overlapping; a zero-length match advances the scan by
one. Returns the list of match spans `(start, end)`. -/
def patScan (p : Pat) (txt : List Char) (i : Nat) : List (Nat × Nat) :=
  patScanFuel p txt (txt.length + 1 - i) i

/-- The scan written as recursion on the position, used as an induction
scheme; `patScan_eq_WF` identifies it with `patScan`. -/
def patScanWF (p : Pat) (txt : List Char) (i : Nat) : List (Nat × Nat) :=
  if txt.length < i then []
  else if p.matchAt txt i then
    (i, i + p.len) :: patScanWF p txt (i + max p.len 1)
  else if i = txt.length then []
  else patScanWF p txt (i + 1)
termination_by txt.length + 1 - i
decreasing_by
  · have : 1 ≤ max p.len 1 := le_max_right _ _
    omega
  · omega

/-- All spans of non-overlapping occurrences of the literal `pat` in `txt`,
left to right (the `re.finditer(target, text)` call of the line-record
parser, with the target treated as a literal pattern). -/
def litOccs (pat txt : List Char) : List (Nat × Nat) :=
  patScan (Pat.mk false pat false) txt 0

deriving instance DecidableEq for Except

/-- The Python exceptions the parsers raise. -/
inductive PyErr where
  | valueError (msg : List Char)
  | keyError (key : List Char)
  | exception (msg : List Char)
deriving DecidableEq

/-- A sentiment label: an integer for dong/semeval data, a raw string
(e.g. the does-not-apply token) for election annotation data. -/
inductive SentVal where
  | num (z : Int)
  | strv (s : List Char)
deriving DecidableEq

/-- Modelled from the spec: `Target` (`tdparse/data_types.py` is not under
`src/`) — one sentiment-labeled span record with fields `text`, `target`,
`spans`, `sentiment`, `target_id` and optional `sentence_id`; constructing it
stores the keyword arguments unchanged. -/
structure Target where
  text : List Char
  target : List Char
  spans : List (Int × Int)
  sentiment : SentVal
  target_id : List Char
  sentence_id : Option (List Char) := none
deriving DecidableEq

/-- Modelled from the spec: `TargetCollection` (`tdparse/data_types.py` is
not under `src/`) — ordered container of `Target` records; construction from
a sequence keeps its order. -/
structure TargetCollection where
  items : List Target
deriving DecidableEq

/-- Modelled from the spec: `TargetCollection.add` appends, preserving
insertion order. -/
def TargetCollection.add (tc : TargetCollection) (t : Target) :
    TargetCollection :=
  ⟨tc.items ++ [t]⟩

/-- Modelled from the spec: `len(collection)` is the number of added
Targets. -/
def TargetCollection.size (tc : TargetCollection) : Nat := tc.items.length

/-! ### The line-record ("dong") parser, `parsers.py` lines 15-64 -/

/-- `''.join(target.split())`: the whitespace-stripped concatenation used
for multi-word targets (`parsers.py` line 54). -/
def dongJoined (target : List Char) : List Char := (pySplitWs target).flatten

/-- Exact-recompute span resolution, `parsers.py` lines 52-57: all
`re.finditer` spans of the (lowered) target in the (lowered) text, extended
by the spans of the whitespace-stripped concatenation when
`len(target.split()) > 1`. -/
def dongSpans (text target : List Char) : List (Int × Int) :=
  let offsets := (litOccs target text).map
    (fun se => ((se.1 : Int), (se.2 : Int)))
  if (pySplitWs target).length > 1 then
    offsets ++ (litOccs (dongJoined target) text).map
      (fun se => ((se.1 : Int), (se.2 : Int)))
  else offsets

/-- The `sent_dict` accumulated across one 3-line cycle of the dong loop. -/
structure SentDict where
  textF : Option (List Char) := none
  targetF : Option (List Char) := none
deriving DecidableEq

/-- The Target built for one completed dong triple (`parsers.py` lines
50-59): text and target lower-cased, spans recomputed, `target_id` the
stringified collection size `n` at the moment of addition. -/
def dongTarget (tx tg : List Char) (sentiment : Int) (n : Nat) : Target :=
  { text := lowerStr tx, target := lowerStr tg,
    spans := dongSpans (lowerStr tx) (lowerStr tg),
    sentiment := SentVal.num sentiment,
    target_id := (toString n).toList,
    sentence_id := none }

/-- The body of the dong parser's line loop (`parsers.py` lines 36-63):
`index` is the 0-based line number, lines are stripped, and the branch is
chosen by `(index + 1) % 3`; on a sentiment line the completed triple is
validated, spans are recomputed, the target id is the stringified current
collection size, and the record is added. -/
def dongLoop : List (List Char) → Nat → SentDict → TargetCollection →
    Except PyErr TargetCollection
  | [], _, _, acc => Except.ok acc
  | rawLine :: rest, index, sd, acc =>
    let divisible := index + 1
    let line := pyStrip rawLine
    if divisible % 3 = 1 then
      dongLoop rest (index + 1) { sd with textF := some line } acc
    else if divisible % 3 = 2 then
      dongLoop rest (index + 1) { sd with targetF := some line } acc
    else if divisible % 3 = 0 then
      match pyParseInt line with
      | none => Except.error (PyErr.valueError
          ("invalid literal for int with base 10: ".toList ++ line))
      | some sentiment =>
        if sentiment = -1 ∨ sentiment = 0 ∨ sentiment = 1 then
          match sd.textF with
          | none => Except.error (PyErr.keyError ("text".toList))
          | some tx =>
            match sd.targetF with
            | none => Except.error (PyErr.keyError ("target".toList))
            | some tg =>
              dongLoop rest (index + 1) {}
                (acc.add (dongTarget tx tg sentiment acc.size))
        else
          Except.error (PyErr.valueError
            ("The sentiment has to be one of the following values [-1, 0, 1] not ".toList
              ++ (toString sentiment).toList))
    else Except.error (PyErr.exception ("Problem".toList))

/-- The dong parser (`parsers.py` lines 15-64) on the file's list of lines
(file-existence checking is outside the model). -/
def dong (fileLines : List (List Char)) : Except PyErr TargetCollection :=
  dongLoop fileLines 0 {} ⟨[]⟩

/-! ### The XML ("semeval") parser, `parsers.py` lines 66-145 -/

/-- The attributes of one `aspectTerm` element (XML attributes are raw
strings, including `from`/`to`). -/
structure AspectAttr where
  term : List Char
  polarity : List Char
  fromA : List Char
  toA : List Char
deriving DecidableEq

/-- A child element of a `sentence` element. -/
inductive SemChild where
  | textEl (content : List Char)
  | aspectTermsEl (terms : List AspectAttr)
  | otherEl (tag : List Char)
deriving DecidableEq

/-- A `sentence` element: its `id` attribute and its child elements in
document order. -/
structure SemSentence where
  idA : List Char
  children : List SemChild
deriving DecidableEq

/-- The `sentiment_mapper` dict of `parsers.py` lines 75-76; `none` models
the `KeyError` on an unknown polarity. -/
def sentiment_mapper (p : List Char) : Option Int :=
  if p = "conflict".toList then some (-2)
  else if p = "negative".toList then some (-1)
  else if p = "neutral".toList then some 0
  else if p = "positive".toList then some 1
  else none

/-- One aspect-term record of the semeval parser (the per-aspect dict:
`target_id`, `target`, `sentiment`, raw string `spans`, and the `text` added
later by `add_text`). -/
structure SemAspect where
  target_id : List Char
  target : List Char
  sentiment : Int
  spans : List (List Char × List Char)
  text : Option (List Char) := none
deriving DecidableEq

/-- `extract_aspect_terms` (`parsers.py` lines 77-100): one record per
aspect term, id `sentence_id ++ index`, sentiment via `sentiment_mapper`
(a `KeyError` aborts at the first unknown polarity, in document order). -/
def extract_aspect_terms (sentence_id : List Char) :
    List AspectAttr → Nat → Except PyErr (List SemAspect)
  | [], _ => Except.ok []
  | a :: rest, index =>
    match sentiment_mapper a.polarity with
    | none => Except.error (PyErr.keyError a.polarity)
    | some sentiment => do
      let tail ← extract_aspect_terms sentence_id rest (index + 1)
      Except.ok ({ target_id := sentence_id ++ (toString index).toList,
                   target := a.term, sentiment := sentiment,
                   spans := [(a.fromA, a.toA)] } :: tail)

/-- `add_text` (`parsers.py` lines 101-116): set the `text` key on every
aspect record. -/
def add_text (aspect_data : List SemAspect) (text : List Char) :
    List SemAspect :=
  aspect_data.map (fun a => { a with text := some text })

/-- The child scan of `parsers.py` lines 129-133: remember the content of
the last `text` child and the extracted data of the last `aspectTerms`
child (extraction runs during the scan, so its `KeyError` precedes the
missing-text check). -/
def semChildScan (sentence_id : List Char) :
    List SemChild → Option (List Char) → Option (List SemAspect) →
    Except PyErr (Option (List Char) × Option (List SemAspect))
  | [], textC, aspectD => Except.ok (textC, aspectD)
  | SemChild.textEl content :: rest, _, aspectD =>
    semChildScan sentence_id rest (some content) aspectD
  | SemChild.aspectTermsEl terms :: rest, textC, _ => do
    let ad ← extract_aspect_terms sentence_id terms 0
    semChildScan sentence_id rest textC (some ad)
  | SemChild.otherEl _ :: rest, textC, aspectD =>
    semChildScan sentence_id rest textC aspectD

/-- The sentence loop of `parsers.py` lines 125-144: skip sentences with no
`aspectTerms` child, fail on aspect terms without a `text` child, else add
the text and append the records in order. -/
def semevalSentences : List SemSentence → List SemAspect →
    Except PyErr (List SemAspect)
  | [], acc => Except.ok acc
  | s :: rest, acc => do
    let scanned ← semChildScan s.idA s.children none none
    match scanned.2 with
    | none => semevalSentences rest acc
    | some aspects =>
      match scanned.1 with
      | none => Except.error (PyErr.valueError
          ("A semeval sentence should always have text semeval sentence id ".toList
            ++ s.idA))
      | some text => semevalSentences rest (acc ++ add_text aspects text)

/-- The semeval parser (`parsers.py` lines 66-145), on the parsed XML root
tag and sentence list; the enclosing `TargetCollection` is modelled by its
insertion-ordered item list. -/
def semeval (rootTag : List Char) (sentences : List SemSentence) :
    Except PyErr (List SemAspect) :=
  if rootTag ≠ "sentences".toList then
    Except.error (PyErr.valueError
      ("The root of all semeval xml files should be sentences and not ".toList
        ++ rootTag))
  else semevalSentences sentences []

/-! ### The multi-file JSON ("election") parser, `parsers.py` lines 147-278 -/

/-- One auto-detected entity of a tweet record. -/
structure Entity where
  entity : List Char
  idE : Int
  offset : Int
deriving DecidableEq

/-- A tweet JSON record (the fields the parser reads). -/
structure TweetData where
  content : List Char
  entities : List Entity
deriving DecidableEq

/-- The `additional_items` field of an annotation record: a dict of
target-string/sentiment pairs in insertion order, or some other JSON
value. -/
inductive AdditionalItems where
  | dict (pairs : List (List Char × SentVal))
  | nonDict
deriving DecidableEq

/-- An annotation JSON record: `items` maps entity-id strings to sentiment
values. -/
structure AnnoData where
  items : List (List Char × SentVal)
  additional_items : AdditionalItems
deriving DecidableEq

/-- `str(i)` for an integer. -/
def intStr (z : Int) : List Char := (toString z).toList

/-- One shift attempt of `get_offsets` (`parsers.py` lines 182-188): slice
`[from_offset + shift, from_offset + shift + len(target))` of the tweet,
lowered, against the lowered target. -/
def getOffsetsTry (tweet_text target : List Char) (from_offset shift : Int) :
    Option (List (Int × Int)) :=
  let from_offset_shift := from_offset + shift
  let to_offset := from_offset_shift + (target.length : Int)
  if lowerStr (pySlice tweet_text from_offset_shift to_offset) = lowerStr target
  then some [(from_offset_shift, to_offset)]
  else none

/-- `get_offsets` (`parsers.py` lines 179-191): try the shifts 0, -1, +1 in
order, return the first matching span, else raise `ValueError`. -/
def get_offsets (tweet_id tweet_text target : List Char) (from_offset : Int) :
    Except PyErr (List (Int × Int)) :=
  match getOffsetsTry tweet_text target from_offset 0 with
  | some r => Except.ok r
  | none =>
    match getOffsetsTry tweet_text target from_offset (-1) with
    | some r => Except.ok r
    | none =>
      match getOffsetsTry tweet_text target from_offset 1 with
      | some r => Except.ok r
      | none => Except.error (PyErr.valueError
          ("Offset ".toList ++ intStr from_offset
            ++ " does not match target text ".toList ++ target
            ++ ". Full text ".toList ++ tweet_text
            ++ " id ".toList ++ tweet_id))

/-- The apostrophe character. -/
def apos : Char := Char.ofNat 39

/-- The ordered `target_searches` pattern list of `parsers.py` lines
195-199: the lowered target, the same with a `[^\w]` class before, around,
and after it, then the target with spaces removed and with space-apostrophe
pairs removed. -/
def fuzzyPatterns (low_target : List Char) : List Pat :=
  [ Pat.mk false low_target false,
    Pat.mk true low_target false,
    Pat.mk true low_target true,
    Pat.mk false low_target true,
    Pat.mk false (pyReplace low_target [' '] []) false,
    Pat.mk false (pyReplace low_target [' ', apos] []) false ]

/-- The pattern loop of `parsers.py` lines 200-204: the match list of the
first pattern with exactly one match in the lowered tweet text. -/
def fuzzyLoop : List Pat → List Char → Option (List (Nat × Nat))
  | [], _ => none
  | p :: rest, low_text =>
    let ms := patScan p low_text 0
    if ms.length = 1 then some ms else fuzzyLoop rest low_text

/-- The three tweet ids skipped wholesale by `fuzzy_target_match`
(`parsers.py` lines 205-206). -/
def allowIds : List (List Char) :=
  ["81211671026352128".toList, "78689580104290305".toList,
   "81209490499960832".toList]

/-- `fuzzy_target_match` (`parsers.py` lines 193-216): first pattern with
exactly one match wins; otherwise skip (`none`) for the allow-listed
id/target cases, else raise `ValueError` naming the target and the full
tweet text. -/
def fuzzy_target_match (tweet_id tweet_text target : List Char) :
    Except PyErr (Option (List (Nat × Nat))) :=
  match fuzzyLoop (fuzzyPatterns (lowerStr target)) (lowerStr tweet_text) with
  | some ms => Except.ok (some ms)
  | none =>
    if tweet_id ∈ allowIds then Except.ok none
    else if tweet_id = "75270720671973376".toList ∧ target = "kippers".toList
    then Except.ok none
    else if tweet_id = "65855178264686592".toList ∧ target = "tax".toList
    then Except.ok none
    else Except.error (PyErr.valueError
      ("Cannot find the exact additional entity ".toList ++ target
        ++ " within the tweet ".toList ++ tweet_text))

/-- The auto-detected entity loop of `parse_tweet` (`parsers.py` lines
225-238): resolve spans via `get_offsets`, look up the sentiment by entity
id, skip does-not-apply entities unless `include_dnr`, and thread the
growing `target_ids` list. -/
def entLoop (include_dnr : Bool) (tweet_id tweet_text : List Char)
    (items : List (List Char × SentVal)) :
    List Entity → List Int → List Target →
    Except PyErr (List Int × List Target)
  | [], ids, acc => Except.ok (ids, acc)
  | e :: rest, ids, acc => do
    let target := e.entity
    let ids' := ids ++ [e.idE]
    let entity_id := intStr e.idE
    let spans ← get_offsets tweet_id tweet_text target e.offset
    match items.lookup entity_id with
    | none => Except.error (PyErr.keyError entity_id)
    | some sentiment =>
      if sentiment = SentVal.strv ("doesnotapply".toList) ∧ include_dnr = false
      then entLoop include_dnr tweet_id tweet_text items rest ids' acc
      else
        let t : Target :=
          { text := tweet_text, target := target, spans := spans,
            sentiment := sentiment,
            target_id := tweet_id ++ ['#'] ++ entity_id,
            sentence_id := some tweet_id }
        entLoop include_dnr tweet_id tweet_text items rest ids' (acc ++ [t])

/-- The user-added entity loop of `parse_tweet` (`parsers.py` lines
243-255): fuzzy-resolve each additional target; a `none` result is skipped;
otherwise the new id is `max(target_ids) + 1` (`max` of an empty sequence is
a `ValueError`) and the first match's span is used. -/
def addLoop (tweet_id tweet_text : List Char) :
    List (List Char × SentVal) → List Int → List Target →
    Except PyErr (List Int × List Target)
  | [], ids, acc => Except.ok (ids, acc)
  | (target, sentiment) :: rest, ids, acc => do
    let m ← fuzzy_target_match tweet_id tweet_text target
    match m with
    | none => addLoop tweet_id tweet_text rest ids acc
    | some target_matches =>
      match ids.max? with
      | none => Except.error (PyErr.valueError
          ("max() arg is an empty sequence".toList))
      | some mx =>
        let target_id := mx + 1
        match target_matches with
        | [] => Except.error (PyErr.exception ("IndexError".toList))
        | se :: _ =>
          let t : Target :=
            { text := tweet_text, target := target,
              spans := [((se.1 : Int), (se.2 : Int))],
              sentiment := sentiment,
              target_id := tweet_id ++ ['#'] ++ intStr target_id,
              sentence_id := some tweet_id }
          addLoop tweet_id tweet_text rest (ids ++ [target_id]) (acc ++ [t])

/-- `parse_tweet` (`parsers.py` lines 177-257): entity loop, then, when
`include_additional` and `additional_items` is a dict, the additional-item
loop. -/
def parse_tweet (include_dnr include_additional : Bool)
    (tweet_data : TweetData) (anno_data : AnnoData) (tweet_id : List Char) :
    Except PyErr (List Target) := do
  let r ← entLoop include_dnr tweet_id tweet_data.content anno_data.items
    tweet_data.entities [] []
  if include_additional then
    match anno_data.additional_items with
    | AdditionalItems.dict pairs => do
      let r' ← addLoop tweet_id tweet_data.content pairs r.1 r.2
      Except.ok r'.2
    | AdditionalItems.nonDict => Except.ok r.2
  else Except.ok r.2

/-- The record-id computation of `get_file_data` (`parsers.py` line 172):
`file_name.rstrip('.json').lstrip('5')`. -/
def electionFileId (file_name : List Char) : List Char :=
  pyLstrip (pyRstrip file_name (".json".toList)) ['5']

/-! ### Tokeniser wrappers, `bella/tokenisers.py` -/

/-- A dynamically typed Python value passed to a tokeniser. -/
inductive PyVal where
  | str (s : List Char)
  | int (z : Int)
  | noneV
deriving DecidableEq

/-- Whether the value is a Python `str`. -/
def PyVal.isStr : PyVal → Bool
  | .str _ => true
  | _ => false

/-- `type(text)` rendered for the error message (quotes omitted). -/
def pyTypeName : PyVal → List Char
  | .str _ => "<class str>".toList
  | .int _ => "<class int>".toList
  | .noneV => "<class NoneType>".toList

/-- `tokenisers.whitespace` (`tokenisers.py` lines 23-33): `text.split()`
for a string, else a `ValueError` naming the required type. -/
def whitespace (text : PyVal) : Except PyErr (List (List Char)) :=
  match text with
  | .str s => Except.ok (pySplitWs s)
  | v => Except.error (PyErr.valueError
      ("The paramter must be of type str not ".toList ++ pyTypeName v))

/-- `tokenisers.ark_twokenize` (`tokenisers.py` lines 36-50), parameterised
by the external `twokenize.tokenizeRawTweetText` function it wraps. -/
def ark_twokenize (tokenizeRawTweetText : List Char → List (List Char))
    (text : PyVal) : Except PyErr (List (List Char)) :=
  match text with
  | .str s => Except.ok (tokenizeRawTweetText s)
  | v => Except.error (PyErr.valueError
      ("The paramter must be of type str not ".toList ++ pyTypeName v))

/-! ### Specification-side definitions

These follow the spec's wording, to be compared with the code-derived
definitions above. -/

instance : Inhabited Target :=
  ⟨{ text := [], target := [], spans := [], sentiment := SentVal.num 0,
     target_id := [], sentence_id := none }⟩

instance : Inhabited SemAspect :=
  ⟨{ target_id := [], target := [], sentiment := 0, spans := [],
     text := none }⟩

/-- Well-formedness of a dong input's complete 3-line cycles: every third
line (stripped) parses as an integer in `{-1, 0, 1}`. -/
def validTriples : List (List Char) → Bool
  | _ :: _ :: s :: rest =>
    (match pyParseInt (pyStrip s) with
     | some z => decide (z = -1 ∨ z = 0 ∨ z = 1)
     | none => false) && validTriples rest
  | _ => true

/-- Spec-side hint-shift acceptance: a shifted offset `s` is accepted when
it is non-negative and the substring of the text at
`[s, s + len(target))`, lower-cased, equals the lower-cased target. -/
def hintMatch (text target : List Char) (s : Int) : Bool :=
  decide (0 ≤ s) &&
    decide (lowerStr (subAt text s.toNat (s.toNat + target.length)) =
      lowerStr target)

/-- Spec-side hint-shift resolution: the first accepted shifted offset among
`hint`, `hint - 1`, `hint + 1`, in that order. -/
def hintShiftSpec (text target : List Char) (hint : Int) : Option Int :=
  [hint, hint - 1, hint + 1].find? (hintMatch text target)

/-- Spec-side fuzzy resolution: the match list of the first pattern that
yields exactly one match; patterns with zero or several matches are passed
over. -/
def firstUniquePattern (pats : List Pat) (low_text : List Char) :
    Option (List (Nat × Nat)) :=
  pats.findSome? (fun p =>
    let ms := patScan p low_text 0
    if ms.length = 1 then some ms else none)

/-- Spec-side allow-list of known-unresolvable cases: three tweet ids
skipped for every target, plus two specific id/target pairs. -/
def allowListed (tweet_id target : List Char) : Bool :=
  decide (tweet_id ∈ allowIds) ||
    (decide (tweet_id = "75270720671973376".toList) &&
      decide (target = "kippers".toList)) ||
    (decide (tweet_id = "65855178264686592".toList) &&
      decide (target = "tax".toList))

/-- Spec-side polarity table:
conflict -2, negative -1, neutral 0, positive 1. -/
def polarityTable : List (List Char × Int) :=
  [("conflict".toList, -2), ("negative".toList, -1),
   ("neutral".toList, 0), ("positive".toList, 1)]

/-! ## General lemmas about the scan primitives -/

/-- With enough fuel, `patScanFuel` does not depend on the fuel and agrees
with the recursion-on-position formulation. -/
theorem patScanFuel_eq_WF (p : Pat) (txt : List Char) :
    ∀ fuel i, txt.length + 1 - i ≤ fuel →
      patScanFuel p txt fuel i = patScanWF p txt i := by
  intro fuel
  induction fuel with
  | zero =>
    intro i hi
    rw [patScanWF]
    rw [if_pos (by omega)]
    rfl
  | succ fuel ih =>
    intro i hi
    rw [patScanWF, patScanFuel]
    by_cases h1 : txt.length < i
    · simp [h1]
    · simp only [if_neg h1]
      by_cases h2 : p.matchAt txt i = true
      · simp only [if_pos h2]
        have hmax : 1 ≤ max p.len 1 := le_max_right _ _
        rw [ih (i + max p.len 1) (by omega)]
      · simp only [if_neg h2]
        by_cases h3 : i = txt.length
        · simp [h3]
        · simp only [if_neg h3]
          exact ih (i + 1) (by omega)

/-- `patScan` agrees with the recursion-on-position formulation. -/
theorem patScan_eq_WF (p : Pat) (txt : List Char) (i : Nat) :
    patScan p txt i = patScanWF p txt i :=
  patScanFuel_eq_WF p txt _ i (le_refl _)

/-- Every span returned by `patScan` starts at or after the scan position,
starts inside the text, has width `p.len`, and is a genuine match. -/
theorem patScan_sound (p : Pat) (txt : List Char) (i : Nat) :
    ∀ se ∈ patScan p txt i,
      i ≤ se.1 ∧ se.1 ≤ txt.length ∧ se.2 = se.1 + p.len ∧
        p.matchAt txt se.1 = true := by
  rw [patScan_eq_WF]
  induction i using patScanWF.induct p txt with
  | case1 x h =>
    intro se hse; rw [patScanWF] at hse; simp [h] at hse
  | case2 x h hm ih =>
    intro se hse
    rw [patScanWF] at hse
    simp only [if_neg h, if_pos hm, List.mem_cons] at hse
    rcases hse with rfl | hse
    · exact ⟨le_refl _, by omega, rfl, hm⟩
    · have := ih se hse
      refine ⟨by omega, this.2.1, this.2.2⟩
  | case3 h hm =>
    intro se hse; rw [patScanWF] at hse; simp [h, hm] at hse
  | case4 x h hm hne ih =>
    intro se hse
    rw [patScanWF] at hse
    simp only [if_neg h, if_neg hm, if_neg hne] at hse
    have := ih se hse
    exact ⟨by omega, this.2⟩

/-- The spans returned by `patScan` are in strictly increasing start order
(left to right). -/
theorem patScan_pairwise (p : Pat) (txt : List Char) (i : Nat) :
    (patScan p txt i).Pairwise (fun a b => a.1 < b.1) := by
  rw [patScan_eq_WF]
  induction i using patScanWF.induct p txt with
  | case1 x h => rw [patScanWF]; simp [h]
  | case2 x h hm ih =>
    rw [patScanWF]
    simp only [if_neg h, if_pos hm]
    refine List.Pairwise.cons ?_ ih
    intro b hb
    rw [← patScan_eq_WF] at hb
    have := (patScan_sound p txt _ b hb).1
    have h1 : 1 ≤ max p.len 1 := le_max_right _ _
    simp only []
    omega
  | case3 h hm => rw [patScanWF]; simp [h, hm]
  | case4 x h hm hne ih =>
    rw [patScanWF]
    simp only [if_neg h, if_neg hm, if_neg hne]
    exact ih

/-- Completeness of the scan: any match position at or after the scan
position is either reported or overlapped by a reported earlier match. -/
theorem patScan_complete (p : Pat) (txt : List Char) (i : Nat) :
    ∀ j, i ≤ j → j ≤ txt.length → p.matchAt txt j = true →
      ∃ se ∈ patScan p txt i, se.1 ≤ j ∧ j < se.1 + max p.len 1 := by
  rw [patScan_eq_WF]
  induction i using patScanWF.induct p txt with
  | case1 x h => intro j hij hj _; omega
  | case2 x h hm ih =>
    intro j hij hj hmj
    rw [patScanWF]
    simp only [if_neg h, if_pos hm]
    by_cases hcase : j < x + max p.len 1
    · exact ⟨(x, x + p.len), by simp, hij, hcase⟩
    · obtain ⟨se, hse, h1, h2⟩ := ih j (by omega) hj hmj
      exact ⟨se, List.mem_cons_of_mem _ hse, h1, h2⟩
  | case3 h hm =>
    intro j hij hj hmj
    have : j = txt.length := by omega
    subst this
    exact absurd hmj hm
  | case4 x h hm hne ih =>
    intro j hij hj hmj
    rw [patScanWF]
    simp only [if_neg h, if_neg hm, if_neg hne]
    rcases Nat.eq_or_lt_of_le hij with rfl | hlt
    · exact absurd hmj hm
    · exact ih j (by omega) hj hmj

/-- A bare-literal pattern matches at `j` exactly when the substring of the
text at `[j, j + len)` is the literal. -/
theorem litMatchAt_iff (lit txt : List Char) (j : Nat) :
    (Pat.mk false lit false).matchAt txt j = true ↔
      subAt txt j (j + lit.length) = lit := by
  simp only [Pat.matchAt, Pat.matchFront, litPostMatch, Bool.false_eq_true,
    if_false, Bool.and_true, subAt, Nat.add_sub_cancel_left,
    List.isPrefixOf_iff_prefix]
  rw [ List.prefix_iff_eq_take]
  constructor
  · intro hx; exact hx.symm
  · intro hx; exact hx.symm

/-- A literal match starting inside the text ends inside the text. -/
theorem litMatchAt_le (lit txt : List Char) (j : Nat)
    (hj : j ≤ txt.length)
    (h : (Pat.mk false lit false).matchAt txt j = true) :
    j + lit.length ≤ txt.length := by
  simp only [Pat.matchAt, Pat.matchFront, litPostMatch, Bool.false_eq_true,
    if_false, Bool.and_true, List.isPrefixOf_iff_prefix] at h
  have := h.length_le
  simp only [List.length_drop] at this
  omega

/-- `lowerStr` preserves length. -/
theorem lowerStr_length (s : List Char) : (lowerStr s).length = s.length := by
  simp [lowerStr]

/-- Soundness of exact-recompute span resolution: every span delivered by
`dongSpans` lies inside the text and its substring is the target or (under
the internal-whitespace condition) the whitespace-stripped concatenation. -/
theorem dongSpans_sound (text target : List Char) :
    ∀ sp ∈ dongSpans text target, ∃ s e : Nat,
      sp = ((s : Int), (e : Int)) ∧ e ≤ text.length ∧
      (subAt text s e = target ∧ e = s + target.length ∨
        (pySplitWs target).length > 1 ∧ subAt text s e = dongJoined target ∧
          e = s + (dongJoined target).length) := by
  intro sp hsp
  have main : ∀ pat : List Char, ∀ se ∈ litOccs pat text,
      se.2 = se.1 + pat.length ∧ se.1 + pat.length ≤ text.length ∧
        subAt text se.1 (se.1 + pat.length) = pat := by
    intro pat se hse
    have hs := patScan_sound _ text 0 se hse
    have hlen : (Pat.mk false pat false).len = pat.length := by
      simp [Pat.len]
    have hm := hs.2.2.2
    have hle := litMatchAt_le pat text se.1 hs.2.1 hm
    exact ⟨by rw [hs.2.2.1, hlen], hle, (litMatchAt_iff pat text se.1).mp hm⟩
  rw [dongSpans] at hsp
  by_cases hws : (pySplitWs target).length > 1
  · simp only [if_pos hws, List.mem_append, List.mem_map] at hsp
    rcases hsp with ⟨se, hse, rfl⟩ | ⟨se, hse, rfl⟩
    · obtain ⟨h1, h2, h3⟩ := main target se hse
      exact ⟨se.1, se.2, rfl, by omega, Or.inl ⟨by rw [h1]; exact h3, h1⟩⟩
    · obtain ⟨h1, h2, h3⟩ := main (dongJoined target) se hse
      exact ⟨se.1, se.2, rfl, by omega,
        Or.inr ⟨hws, by rw [h1]; exact h3, h1⟩⟩
  · simp only [if_neg hws, List.mem_map] at hsp
    obtain ⟨se, hse, rfl⟩ := hsp
    obtain ⟨h1, h2, h3⟩ := main target se hse
    exact ⟨se.1, se.2, rfl, by omega, Or.inl ⟨by rw [h1]; exact h3, h1⟩⟩

/-- A bare-literal pattern's match width is the literal's length. -/
theorem litPat_len (lit : List Char) :
    (Pat.mk false lit false).len = lit.length := by
  simp [Pat.len]

/-- C6: exact-recompute span resolution returns the spans of the
non-overlapping left-to-right literal occurrences of the target, extended by
the occurrences of the whitespace-stripped concatenation exactly when the
target splits into more than one whitespace-separated chunk; every returned
span is a genuine in-bounds occurrence, every occurrence position is covered
by a returned span, the spans are in left-to-right order, an empty list is
valid output, and for text "the cat sat on the cat mat" and target "cat" the
result is [(4, 7), (19, 22)]. -/
theorem c6_exact_recompute_spans (text target : List Char) :
    (∀ sp ∈ dongSpans text target, ∃ s e : Nat,
        sp = ((s : Int), (e : Int)) ∧ e ≤ text.length ∧
        (subAt text s e = target ∧ e = s + target.length ∨
          (pySplitWs target).length > 1 ∧ subAt text s e = dongJoined target ∧
            e = s + (dongJoined target).length)) ∧
    (∀ j, j + target.length ≤ text.length →
        subAt text j (j + target.length) = target →
        ∃ se ∈ litOccs target text, se.1 ≤ j ∧
          j < se.1 + max target.length 1 ∧
          ((se.1 : Int), (se.2 : Int)) ∈ dongSpans text target) ∧
    (litOccs target text).Pairwise (fun a b => a.1 < b.1) ∧
    ((pySplitWs target).length ≤ 1 →
      dongSpans text target =
        (litOccs target text).map (fun se => ((se.1 : Int), (se.2 : Int)))) ∧
    dongSpans "the cat sat on the cat mat".toList "cat".toList =
      [((4 : Int), (7 : Int)), ((19 : Int), (22 : Int))] ∧
    dongSpans "the dog sat".toList "cat".toList = [] := by
  refine ⟨dongSpans_sound text target, ?_, patScan_pairwise _ text 0, ?_,
    by decide, by decide⟩
  · intro j hle hsub
    have hm : (Pat.mk false target false).matchAt text j = true :=
      (litMatchAt_iff target text j).mpr hsub
    obtain ⟨se, hse, h1, h2⟩ :=
      patScan_complete _ text 0 j (Nat.zero_le _) (by omega) hm
    have hlen := litPat_len target
    refine ⟨se, hse, h1, by omega, ?_⟩
    rw [dongSpans]
    by_cases hws : (pySplitWs target).length > 1
    · simp only [if_pos hws, List.mem_append, List.mem_map]
      exact Or.inl ⟨se, hse, rfl⟩
    · simp only [if_neg hws, List.mem_map]
      exact ⟨se, hse, rfl⟩
  · intro hws
    rw [dongSpans]
    rw [if_neg (by omega)]

/-- C6 witness: in "the cat sat on the cat mat" the second occurrence of
"cat" (at position 19) is covered by a reported span that also appears in
the resolver's output. -/
theorem c6_witness :
    ∃ se ∈ litOccs "cat".toList "the cat sat on the cat mat".toList,
      se.1 ≤ 19 ∧ 19 < se.1 + max ("cat".toList).length 1 ∧
      ((se.1 : Int), (se.2 : Int)) ∈
        dongSpans "the cat sat on the cat mat".toList "cat".toList :=
  (c6_exact_recompute_spans "the cat sat on the cat mat".toList
    "cat".toList).2.1 19 (by decide) (by decide)

/-! ## Lemmas about the dong parser loop -/

/-- Appending nothing to a collection's items gives the collection back. -/
theorem tc_eta (acc : TargetCollection) :
    (⟨acc.items ++ []⟩ : TargetCollection) = acc := by
  cases acc; simp

/-- The dong loop on no lines returns the accumulator. -/
theorem dongLoop_nil (i : Nat) (sd : SentDict) (acc : TargetCollection) :
    dongLoop [] i sd acc = Except.ok acc := rfl

/-- The dong loop on a single trailing line (at a cycle boundary) returns
the accumulator: the partial record is dropped. -/
theorem dongLoop_one (a : List Char) (i : Nat) (sd : SentDict)
    (acc : TargetCollection) (h : i % 3 = 0) :
    dongLoop [a] i sd acc = Except.ok acc := by
  have h1 : (i + 1) % 3 = 1 := by omega
  rw [dongLoop]
  simp only [if_pos h1]
  rfl

/-- The dong loop on two trailing lines (at a cycle boundary) returns the
accumulator: the partial record is dropped. -/
theorem dongLoop_two (a b : List Char) (i : Nat) (sd : SentDict)
    (acc : TargetCollection) (h : i % 3 = 0) :
    dongLoop [a, b] i sd acc = Except.ok acc := by
  have h1 : (i + 1) % 3 = 1 := by omega
  have h2' : ¬((i + 1 + 1) % 3 = 1) := by omega
  have h2 : (i + 1 + 1) % 3 = 2 := by omega
  rw [dongLoop]
  simp only [if_pos h1]
  rw [dongLoop]
  simp only [if_neg h2', if_pos h2]
  rfl

/-- One full 3-line cycle of the dong loop, at a cycle boundary: the
sentiment line decides everything; on success the triple's Target is added
and the loop continues on the remaining lines with an empty dict. -/
theorem dongLoop_chunk (t g s : List Char) (rest : List (List Char))
    (i : Nat) (sd : SentDict) (acc : TargetCollection) (h : i % 3 = 0) :
    dongLoop (t :: g :: s :: rest) i sd acc =
      match pyParseInt (pyStrip s) with
      | none => Except.error (PyErr.valueError
          ("invalid literal for int with base 10: ".toList ++ pyStrip s))
      | some z =>
        if z = -1 ∨ z = 0 ∨ z = 1 then
          dongLoop rest (i + 1 + 1 + 1) {}
            (acc.add (dongTarget (pyStrip t) (pyStrip g) z acc.size))
        else
          Except.error (PyErr.valueError
            ("The sentiment has to be one of the following values [-1, 0, 1] not ".toList
              ++ (toString z).toList)) := by
  have h1 : (i + 1) % 3 = 1 := by omega
  have h2' : ¬((i + 1 + 1) % 3 = 1) := by omega
  have h2 : (i + 1 + 1) % 3 = 2 := by omega
  have h3' : ¬((i + 1 + 1 + 1) % 3 = 1) := by omega
  have h3'' : ¬((i + 1 + 1 + 1) % 3 = 2) := by omega
  have h3 : (i + 1 + 1 + 1) % 3 = 0 := by omega
  rw [dongLoop]
  simp only [if_pos h1]
  rw [dongLoop]
  simp only [if_neg h2', if_pos h2]
  rw [dongLoop]
  simp only [if_neg h3', if_neg h3'', if_pos h3]

/-- One full 3-line cycle with a valid sentiment line: the triple's Target
is added and the loop continues. -/
theorem dongLoop_chunk_ok (t g s : List Char) (rest : List (List Char))
    (i : Nat) (sd : SentDict) (acc : TargetCollection) (h : i % 3 = 0)
    (z : Int) (hp : pyParseInt (pyStrip s) = some z)
    (hz : z = -1 ∨ z = 0 ∨ z = 1) :
    dongLoop (t :: g :: s :: rest) i sd acc =
      dongLoop rest (i + 1 + 1 + 1) {}
        (acc.add (dongTarget (pyStrip t) (pyStrip g) z acc.size)) := by
  rw [dongLoop_chunk t g s rest i sd acc h, hp]
  simp [hz]

/-- The dong loop on well-formed complete triples succeeds, producing one
Target per triple (a trailing partial record contributes nothing), each
built by `dongTarget` with the running collection size as its id index. -/
theorem dongLoop_spec :
    ∀ lines : List (List Char), validTriples lines = true →
    ∀ (i : Nat) (sd : SentDict) (acc : TargetCollection), i % 3 = 0 →
    ∃ ts : List Target,
      dongLoop lines i sd acc = Except.ok ⟨acc.items ++ ts⟩ ∧
      ts.length = lines.length / 3 ∧
      ∀ k, k < ts.length → ∃ tx tg z,
        (z = -1 ∨ z = 0 ∨ z = 1) ∧
        ts.getD k default = dongTarget tx tg z (acc.items.length + k) := by
  intro lines
  induction lines using validTriples.induct with
  | case1 t g s rest ih =>
    intro hv i sd acc hi
    unfold validTriples at hv
    cases hp : pyParseInt (pyStrip s) with
    | none => rw [hp] at hv; simp at hv
    | some z =>
      rw [hp] at hv
      simp only [Bool.and_eq_true, decide_eq_true_eq] at hv
      obtain ⟨hz, hrest⟩ := hv
      rw [dongLoop_chunk_ok t g s rest i sd acc hi z hp hz]
      set d := dongTarget (pyStrip t) (pyStrip g) z acc.size with hd
      obtain ⟨ts, hts, hlen, hk⟩ := ih hrest (i + 1 + 1 + 1) {} (acc.add d)
        (by omega)
      refine ⟨d :: ts, ?_, ?_, ?_⟩
      · rw [hts]
        congr 1
        simp [TargetCollection.add]
      · simp only [List.length_cons]
        omega
      · intro k hk'
        cases k with
        | zero =>
          refine ⟨pyStrip t, pyStrip g, z, hz, ?_⟩
          simp [hd, TargetCollection.size]
        | succ k =>
          obtain ⟨tx, tg2, z2, hz2, heq⟩ := hk k (by simp at hk'; omega)
          refine ⟨tx, tg2, z2, hz2, ?_⟩
          simp only [List.getD_cons_succ]
          rw [heq]
          have : (acc.add d).items.length + k = acc.items.length + (k + 1) := by
            simp [TargetCollection.add]
            omega
          rw [this]
  | case2 t hshape =>
    intro hv i sd acc hi
    rcases t with _ | ⟨a, _ | ⟨b, _ | ⟨c, rest⟩⟩⟩
    · refine ⟨[], ?_, by simp, by intro k hk; simp at hk⟩
      rw [dongLoop_nil, tc_eta]
    · refine ⟨[], ?_, by simp, by intro k hk; simp at hk⟩
      rw [dongLoop_one a i sd acc hi, tc_eta]
    · refine ⟨[], ?_, by simp, by intro k hk; simp at hk⟩
      rw [dongLoop_two a b i sd acc hi, tc_eta]
    · exact absurd rfl (hshape a b c rest)

/-- Every Target in a successfully parsed dong collection either came from
the accumulator or was built by `dongTarget`. -/
theorem dongLoop_targets :
    ∀ (lines : List (List Char)) (i : Nat) (sd : SentDict)
      (acc tc : TargetCollection),
      dongLoop lines i sd acc = Except.ok tc →
      ∀ t ∈ tc.items, t ∈ acc.items ∨ ∃ tx tg z n, t = dongTarget tx tg z n := by
  intro lines
  induction lines with
  | nil =>
    intro i sd acc tc h t ht
    rw [dongLoop_nil] at h
    cases h
    exact Or.inl ht
  | cons line rest ih =>
    intro i sd acc tc h t ht
    rw [dongLoop] at h
    split at h
    · exact ih _ _ _ _ h t ht
    · split at h
      · exact ih _ _ _ _ h t ht
      · split at h
        · split at h
          · cases h
          · split at h
            · split at h
              · cases h
              · split at h
                · cases h
                · rcases ih _ _ _ _ h t ht with hmem | hex
                  · simp only [TargetCollection.add, List.mem_append,
                      List.mem_singleton] at hmem
                    rcases hmem with hmem | rfl
                    · exact Or.inl hmem
                    · exact Or.inr ⟨_, _, _, _, rfl⟩
                  · exact Or.inr hex
            · cases h
        · cases h

/-! ## C4 and C5: the dong parser on complete and incomplete inputs -/

/-- C4 counterexample: a 4-line file (not a multiple of 3) does NOT raise:
`dong` returns a collection holding the one complete record, silently
dropping the trailing partial record. -/
theorem c4_counterexample :
    dong ["I like kippers".toList, "kippers".toList, "1".toList,
        "trailing".toList] =
      Except.ok (TargetCollection.mk [Target.mk "i like kippers".toList
        "kippers".toList [((7 : Int), (14 : Int))] (SentVal.num 1)
        "0".toList none]) := by
  decide

/-- C4 (amended): on an input whose line count is not a multiple of 3 (and
whose complete triples are well-formed), `dong` does not raise: it returns
the collection of the `len / 3` complete records and silently drops the
trailing partial record (the any-other-case branch is unreachable). -/
theorem c4_dong_drops_partial_record (lines : List (List Char))
    (h1 : lines.length % 3 ≠ 0) (h2 : validTriples lines = true) :
    ∃ tc : TargetCollection, dong lines = Except.ok tc ∧
      tc.size = lines.length / 3 := by
  obtain ⟨ts, hts, hlen, _⟩ := dongLoop_spec lines h2 0 {} ⟨[]⟩ (by omega)
  refine ⟨⟨ts⟩, ?_, ?_⟩
  · rw [dong, hts]
    simp
  · simp [TargetCollection.size, hlen]

/-- C4 witness: the amended claim at a concrete 4-line input. -/
theorem c4_witness :
    ∃ tc : TargetCollection,
      dong ["I like kippers".toList, "kippers".toList, "1".toList,
        "x".toList] = Except.ok tc ∧ tc.size = 1 :=
  c4_dong_drops_partial_record _ (by decide) (by decide)

/-- C5: on a well-formed input of exactly `3 * n` lines with all sentiments
in `{-1, 0, 1}`, `dong` returns a collection of exactly `n` Targets, and the
`k`-th added Target's id is the decimal string of `k`. -/
theorem c5_dong_ids (lines : List (List Char)) (n : Nat)
    (h1 : lines.length = 3 * n) (h2 : validTriples lines = true) :
    ∃ tc : TargetCollection, dong lines = Except.ok tc ∧ tc.size = n ∧
      ∀ k, k < n →
        (tc.items.getD k default).target_id = (toString k).toList := by
  obtain ⟨ts, hts, hlen, hk⟩ := dongLoop_spec lines h2 0 {} ⟨[]⟩ (by omega)
  refine ⟨⟨ts⟩, ?_, ?_, ?_⟩
  · rw [dong, hts]
    simp
  · simp only [TargetCollection.size, hlen, h1]
    omega
  · intro k hkn
    have hk' : k < ts.length := by
      rw [hlen, h1]
      omega
    obtain ⟨tx, tg, z, hz, heq⟩ := hk k hk'
    show (ts.getD k default).target_id = _
    rw [heq]
    simp [dongTarget]

/-- C5 witness: the claim at a concrete 6-line input. -/
theorem c5_witness :
    ∃ tc : TargetCollection,
      dong ["I like kippers".toList, "kippers".toList, "1".toList,
        "He hates cod".toList, "cod".toList, "-1".toList] =
        Except.ok tc ∧ tc.size = 2 ∧
        ∀ k, k < 2 →
          (tc.items.getD k default).target_id = (toString k).toList :=
  c5_dong_ids _ 2 (by decide) (by decide)

/-! ## C2: hint-shift span resolution -/

/-- For a non-negative start, the Python slice `s[a : a + L]` is the plain
(truncating) substring starting at `a`. -/
theorem pySlice_nonneg (s : List Char) (a : Int) (L : Nat) (h : 0 ≤ a) :
    pySlice s a (a + (L : Int)) = (s.drop a.toNat).take L := by
  simp only [pySlice]
  have ha : ¬(a < 0) := by omega
  by_cases hb : a + (L : Int) < 0
  · omega
  · simp only [if_neg ha, if_neg hb]
    by_cases hlt : min a (s.length : Int) < min (a + (L : Int)) (s.length : Int)
    · rw [if_pos hlt]
      have haN : a < (s.length : Int) := by omega
      have : min a (s.length : Int) = a := by omega
      rw [this]
      rw [List.take_eq_take]
      simp only [List.length_drop]
      omega
    · rw [if_neg hlt]
      rcases Nat.eq_zero_or_pos L with rfl | hL

      · simp
      · have hge : (s.length : Int) ≤ a := by omega
        have : s.drop a.toNat = [] := by
          rw [List.drop_eq_nil_iff]
          omega
        rw [this, List.take_nil]

/-- The slice `s[-1 : -1 + L]` is always shorter than `L` (for `L ≥ 1`):
a negative start wrapping to the last character cannot produce a full-length
match. -/
theorem pySlice_neg_one_short (s : List Char) (L : Nat) (hL : 1 ≤ L) :
    (pySlice s (-1) (-1 + (L : Int))).length < L := by
  simp only [pySlice]
  have ha : (-1 : Int) < 0 := by omega
  by_cases hb : (-1 : Int) + (L : Int) < 0
  · omega
  · simp only [if_pos ha, if_neg hb]
    split_ifs with hlt
    · simp only [List.length_take, List.length_drop]
      omega
    · simpa using hL

/-- A non-negative shift attempt succeeds exactly when the spec-side
`hintMatch` accepts the shifted offset. -/
theorem getOffsetsTry_nonneg (text target : List Char) (off shift : Int)
    (h : 0 ≤ off + shift) :
    getOffsetsTry text target off shift =
      if hintMatch text target (off + shift) = true then
        some [(off + shift, off + shift + (target.length : Int))]
      else none := by
  have hm : hintMatch text target (off + shift) =
      decide (lowerStr ((text.drop (off + shift).toNat).take target.length) =
        lowerStr target) := by
    simp [hintMatch, subAt, Nat.add_sub_cancel_left, h]
  simp only [getOffsetsTry]
  rw [pySlice_nonneg text (off + shift) target.length h, hm]
  by_cases hc :
      lowerStr ((text.drop (off + shift).toNat).take target.length) =
        lowerStr target
  · simp [hc]
  · simp [hc]

/-- A shift attempt whose shifted offset is `-1` never succeeds for a
non-empty target: the wrapped slice is too short. -/
theorem getOffsetsTry_neg_one (text target : List Char) (off shift : Int)
    (hsum : off + shift = -1) (htg : target ≠ []) :
    getOffsetsTry text target off shift = none := by
  simp only [getOffsetsTry, hsum]
  have hL : 1 ≤ target.length := by
    cases target with
    | nil => exact absurd rfl htg
    | cons c cs => simp
  rw [if_neg]
  intro hc
  have h1 := pySlice_neg_one_short text target.length hL
  have h2 : (lowerStr (pySlice text (-1) (-1 + (target.length : Int)))).length
      = (lowerStr target).length := by rw [hc]
  simp only [lowerStr_length] at h2
  omega

/-- Full case analysis of `get_offsets` for non-negative hints, against the
spec-side first-matching-shift function. -/
theorem get_offsets_cases (tid text target : List Char) (hint : Int)
    (h : 0 ≤ hint) :
    (∀ s : Int, hintShiftSpec text target hint = some s →
      get_offsets tid text target hint =
        Except.ok [(s, s + (target.length : Int))]) ∧
    (hintShiftSpec text target hint = none →
      ∃ msg, get_offsets tid text target hint =
        Except.error (PyErr.valueError msg)) := by
  have e0 : getOffsetsTry text target hint 0 =
      if hintMatch text target hint = true then
        some [(hint, hint + (target.length : Int))] else none := by
    have := getOffsetsTry_nonneg text target hint 0 (by omega)
    simpa using this
  have e2 : getOffsetsTry text target hint 1 =
      if hintMatch text target (hint + 1) = true then
        some [(hint + 1, hint + 1 + (target.length : Int))] else none :=
    getOffsetsTry_nonneg text target hint 1 (by omega)
  by_cases m0 : hintMatch text target hint = true
  · constructor
    · intro s hs
      simp only [hintShiftSpec, List.find?, m0] at hs
      cases hs
      rw [get_offsets, e0, if_pos m0]
    · intro hnone
      simp only [hintShiftSpec, List.find?, m0] at hnone
      exact Option.noConfusion hnone
  · have htg : target ≠ [] := by
      intro hemp
      apply m0
      simp [hintMatch, hemp, subAt, h]
    have e1 : getOffsetsTry text target hint (-1) =
        if hintMatch text target (hint - 1) = true then
          some [(hint - 1, hint - 1 + (target.length : Int))] else none := by
      by_cases hzero : hint = 0
      · subst hzero
        rw [getOffsetsTry_neg_one text target 0 (-1) (by omega) htg]
        have : hintMatch text target (0 - 1) = false := by
          simp [hintMatch]
        rw [this]
        simp
      · have hpos : 0 ≤ hint + (-1) := by omega
        have := getOffsetsTry_nonneg text target hint (-1) hpos
        rw [this]
        have harith : hint + (-1) = hint - 1 := by omega
        rw [harith]
    by_cases m1 : hintMatch text target (hint - 1) = true
    · constructor
      · intro s hs
        simp only [hintShiftSpec, List.find?, m0, m1] at hs
        cases hs
        rw [get_offsets, e0, if_neg m0, e1, if_pos m1]
      · intro hnone
        simp only [hintShiftSpec, List.find?, m0, m1] at hnone
        exact Option.noConfusion hnone
    · by_cases m2 : hintMatch text target (hint + 1) = true
      · constructor
        · intro s hs
          simp only [hintShiftSpec, List.find?, m0, m1, m2] at hs
          cases hs
          rw [get_offsets, e0, if_neg m0, e1, if_neg m1, e2, if_pos m2]
        · intro hnone
          simp only [hintShiftSpec, List.find?, m0, m1, m2] at hnone
          exact Option.noConfusion hnone
      · constructor
        · intro s hs
          simp only [hintShiftSpec, List.find?, m0, m1, m2] at hs
          exact Option.noConfusion hs
        · intro hnone
          apply Exists.intro
          rw [get_offsets, e0, if_neg m0, e1, if_neg m1, e2, if_neg m2]

/-- C2 theorem (amended: for non-negative hint offsets): `get_offsets`
returns the single span `[s, s + len(target))` for the first of the shifted
offsets `hint`, `hint - 1`, `hint + 1` at which the substring of the text,
lower-cased, equals the lower-cased target, and raises a `ValueError` when
none of the three matches. -/
theorem c2_hint_shift (tid text target : List Char) (hint : Int)
    (h : 0 ≤ hint) :
    (∀ s : Int, hintShiftSpec text target hint = some s →
      get_offsets tid text target hint =
        Except.ok [(s, s + (target.length : Int))]) ∧
    (hintShiftSpec text target hint = none →
      ∃ msg, get_offsets tid text target hint =
        Except.error (PyErr.valueError msg)) :=
  get_offsets_cases tid text target hint h

/-- C2 witness: text "I like kippers", target "kippers", hint 8: the span
is found at offset 7 via the -1 shift. -/
theorem c2_witness :
    get_offsets "id1".toList "I like kippers".toList "kippers".toList 8 =
      Except.ok [((7 : Int), (7 : Int) + (("kippers".toList).length : Int))] :=
  (c2_hint_shift "id1".toList "I like kippers".toList "kippers".toList 8
    (by omega)).1 7 (by decide)

/-- C2 counterexample: for a negative hint, Python's wrap-around slicing
makes `get_offsets` return a span although no shifted offset carries a
matching substring of the text (the claim, quantifying over every hint
offset, predicts a span-mismatch error here). -/
theorem c2_counterexample :
    get_offsets "id1".toList "kipperskip".toList "kip".toList (-10) =
      Except.ok [((-10 : Int), (-7 : Int))] ∧
    hintShiftSpec "kipperskip".toList "kip".toList (-10) = none := by
  constructor
  · decide
  · decide

/-! ## C1: the span/substring invariant -/

/-- C1 counterexample: a multi-word dong target whose whitespace-stripped
concatenation occurs in the text produces a span whose substring is the
concatenation, not the target: the substring at (7, 14) of the stored text
is "newyork", which does not equal the stored target "new york". -/
theorem c1_counterexample :
    dong ["i love newyork".toList, "new york".toList, "1".toList] =
      Except.ok (TargetCollection.mk [Target.mk "i love newyork".toList
        "new york".toList [((7 : Int), (14 : Int))] (SentVal.num 1)
        "0".toList none]) ∧
    lowerStr (subAt "i love newyork".toList 7 14) ≠
      lowerStr "new york".toList := by
  constructor
  · decide
  · decide

/-- C1 (amended): every span of a dong-produced Target indexes validly into
its text and its substring, lower-cased, equals the lower-cased target OR
the lower-cased whitespace-stripped concatenation of the target; election
hint-shift spans (for non-negative offsets) satisfy the exact
case-insensitive substring equality.  (Semeval spans are copied verbatim
from XML attributes and fuzzy-matched spans may include a boundary
character; neither is validated against the text.) -/
theorem c1_span_substring_invariant :
    (∀ (lines : List (List Char)) (tc : TargetCollection),
      dong lines = Except.ok tc →
      ∀ t ∈ tc.items, ∀ sp ∈ t.spans, ∃ s e : Nat,
        sp = ((s : Int), (e : Int)) ∧ e ≤ t.text.length ∧
        (lowerStr (subAt t.text s e) = lowerStr t.target ∨
          lowerStr (subAt t.text s e) = lowerStr (dongJoined t.target))) ∧
    (∀ (tid text target : List Char) (off : Int) (spans : List (Int × Int)),
      0 ≤ off → get_offsets tid text target off = Except.ok spans →
      ∀ sp ∈ spans, ∃ s : Nat, sp = ((s : Int), (s : Int) + target.length) ∧
        lowerStr (subAt text s (s + target.length)) = lowerStr target) := by
  constructor
  · intro lines tc hok t ht sp hsp
    rcases dongLoop_targets lines 0 {} ⟨[]⟩ tc hok t ht with hmem | ⟨tx, tg, z, n, rfl⟩
    · simp at hmem
    · have hsp' : sp ∈ dongSpans (lowerStr tx) (lowerStr tg) := by
        simpa [dongTarget] using hsp
      obtain ⟨s, e, rfl, hle, hsub⟩ :=
        dongSpans_sound (lowerStr tx) (lowerStr tg) sp hsp'
      refine ⟨s, e, rfl, ?_, ?_⟩
      · simpa [dongTarget] using hle
      · rcases hsub with ⟨hs, _⟩ | ⟨_, hs, _⟩
        · exact Or.inl (by simp only [dongTarget]; rw [hs])
        · exact Or.inr (by simp only [dongTarget]; rw [hs])
  · intro tid text target off spans hoff hok sp hsp
    obtain ⟨hsome, hnone⟩ := get_offsets_cases tid text target off hoff
    cases hfind : hintShiftSpec text target off with
    | none =>
      obtain ⟨msg, hmsg⟩ := hnone hfind
      rw [hok] at hmsg
      exact Except.noConfusion hmsg
    | some s =>
      have hspans := hsome s hfind
      rw [hok] at hspans
      cases hspans
      have hp := List.find?_some hfind
      simp only [hintMatch, Bool.and_eq_true, decide_eq_true_eq] at hp
      obtain ⟨hge, heq⟩ := hp
      simp only [List.mem_singleton] at hsp
      subst hsp
      refine ⟨s.toNat, ?_, heq⟩
      rw [Int.toNat_of_nonneg hge]

/-- C1 witness: the amended dong part evaluated on a concrete parse. -/
theorem c1_witness :
    ∃ s e : Nat, ((7 : Int), (14 : Int)) = ((s : Int), (e : Int)) ∧
      e ≤ ("i like kippers".toList).length ∧
      (lowerStr (subAt "i like kippers".toList s e) =
          lowerStr "kippers".toList ∨
        lowerStr (subAt "i like kippers".toList s e) =
          lowerStr (dongJoined "kippers".toList)) :=
  c1_span_substring_invariant.1
    ["I like kippers".toList, "kippers".toList, "1".toList]
    (TargetCollection.mk [Target.mk "i like kippers".toList
      "kippers".toList [((7 : Int), (14 : Int))] (SentVal.num 1)
      "0".toList none])
    (by decide)
    (Target.mk "i like kippers".toList "kippers".toList
      [((7 : Int), (14 : Int))] (SentVal.num 1) "0".toList none)
    (by decide)
    ((7 : Int), (14 : Int))
    (by decide)

/-! ## C3: fuzzy span resolution -/

/-- The pattern loop is the first-unique-match selection of the spec. -/
theorem fuzzyLoop_eq_findSome (pats : List Pat) (low_text : List Char) :
    fuzzyLoop pats low_text = firstUniquePattern pats low_text := by
  induction pats with
  | nil => rfl
  | cons p rest ih =>
    by_cases hc : (patScan p low_text 0).length = 1
    · simp [fuzzyLoop, firstUniquePattern, List.findSome?, hc]
    · simp only [fuzzyLoop, firstUniquePattern, List.findSome?, hc,
        if_false]
      rw [ih, firstUniquePattern]

/-- A first-unique-match result comes from one of the patterns and holds
exactly one match. -/
theorem firstUniquePattern_some (pats : List Pat) (lt : List Char)
    (ms : List (Nat × Nat)) :
    firstUniquePattern pats lt = some ms →
      ∃ p ∈ pats, patScan p lt 0 = ms ∧ ms.length = 1 := by
  induction pats with
  | nil => intro h; exact Option.noConfusion h
  | cons p rest ih =>
    intro h
    by_cases hc : (patScan p lt 0).length = 1
    · simp only [firstUniquePattern, List.findSome?, if_pos hc,
        Option.some.injEq] at h
      exact ⟨p, by simp, h, h ▸ hc⟩
    · simp only [firstUniquePattern, List.findSome?, if_neg hc] at h
      obtain ⟨q, hq, hqs, hlen⟩ := ih (by rw [firstUniquePattern]; exact h)
      exact ⟨q, List.mem_cons_of_mem _ hq, hqs, hlen⟩

/-- C3: fuzzy resolution returns the match of the first pattern yielding
exactly one match (zero- or several-match patterns are passed over); when no
pattern yields exactly one match, the result is a skip (`none`) exactly for
allow-listed cases, and otherwise a `ValueError` naming the target and the
full tweet text. -/
theorem c3_fuzzy_resolution (tid text target : List Char) :
    (∀ ms, firstUniquePattern (fuzzyPatterns (lowerStr target))
        (lowerStr text) = some ms →
      fuzzy_target_match tid text target = Except.ok (some ms) ∧
        ms.length = 1) ∧
    (firstUniquePattern (fuzzyPatterns (lowerStr target))
        (lowerStr text) = none →
      (allowListed tid target = true →
        fuzzy_target_match tid text target = Except.ok none) ∧
      (allowListed tid target = false →
        fuzzy_target_match tid text target = Except.error (PyErr.valueError
          ("Cannot find the exact additional entity ".toList ++ target
            ++ " within the tweet ".toList ++ text)))) := by
  constructor
  · intro ms hms
    constructor
    · rw [fuzzy_target_match, fuzzyLoop_eq_findSome, hms]
    · obtain ⟨p, _, _, hlen⟩ :=
        firstUniquePattern_some (fuzzyPatterns (lowerStr target))
          (lowerStr text) ms hms
      exact hlen
  · intro hnone
    constructor
    · intro hallow
      rw [fuzzy_target_match, fuzzyLoop_eq_findSome, hnone]
      simp only [allowListed, Bool.or_eq_true, Bool.and_eq_true,
        decide_eq_true_eq] at hallow
      rcases hallow with (hmem | ⟨h1, h2⟩) | ⟨h1, h2⟩
      · simp [hmem]
      · rw [if_neg (by subst h1; decide), if_pos ⟨h1, h2⟩]
      · rw [if_neg (by subst h1; decide)]
        rw [if_neg (by subst h1; subst h2; decide), if_pos ⟨h1, h2⟩]
    · intro hallow
      rw [fuzzy_target_match, fuzzyLoop_eq_findSome, hnone]
      simp only [allowListed, Bool.or_eq_false_iff, Bool.and_eq_false_iff,
        decide_eq_false_iff_not] at hallow
      obtain ⟨⟨hmem, hp1⟩, hp2⟩ := hallow
      have hn1 : ¬(tid = "75270720671973376".toList ∧
          target = "kippers".toList) := by
        intro hx
        rcases hp1 with hc | hc
        · exact hc hx.1
        · exact hc hx.2
      have hn2 : ¬(tid = "65855178264686592".toList ∧
          target = "tax".toList) := by
        intro hx
        rcases hp2 with hc | hc
        · exact hc hx.1
        · exact hc hx.2
      rw [if_neg hmem, if_neg hn1, if_neg hn2]

/-- C3 witness: target "tax" in "I hate the new tax plan" resolves to its
single literal occurrence via the first pattern. -/
theorem c3_witness :
    fuzzy_target_match "id9".toList "I hate the new tax plan".toList
        "tax".toList =
      Except.ok (some [((15 : Nat), (18 : Nat))]) ∧
      ([((15 : Nat), (18 : Nat))] : List (Nat × Nat)).length = 1 :=
  (c3_fuzzy_resolution "id9".toList "I hate the new tax plan".toList
    "tax".toList).1 [(15, 18)] (by decide)

/-! ## C7: the semeval polarity table -/

instance : Inhabited AspectAttr := ⟨⟨[], [], [], []⟩⟩

/-- The code's `sentiment_mapper` dict is exactly the spec-side table. -/
theorem sentiment_mapper_eq_table (p : List Char) :
    sentiment_mapper p = polarityTable.lookup p := by
  by_cases h1 : p = "conflict".toList
  · simp [sentiment_mapper, polarityTable, List.lookup, h1]
  · by_cases h2 : p = "negative".toList
    · simp [sentiment_mapper, polarityTable, List.lookup, h1, h2]
    · by_cases h3 : p = "neutral".toList
      · simp [sentiment_mapper, polarityTable, List.lookup, h1, h2, h3]
      · by_cases h4 : p = "positive".toList
        · simp [sentiment_mapper, polarityTable, List.lookup, h1, h2, h3, h4]
        · have b1 := beq_false_of_ne h1
          have b2 := beq_false_of_ne h2
          have b3 := beq_false_of_ne h3
          have b4 := beq_false_of_ne h4
          simp only [sentiment_mapper, polarityTable, List.lookup,
            if_neg h1, if_neg h2, if_neg h3, if_neg h4, b1, b2, b3, b4]

/-- A successful extraction maps every aspect term's polarity through the
mapper, in order. -/
theorem extract_ok_spec (sid : List Char) :
    ∀ (terms : List AspectAttr) (idx : Nat) (res : List SemAspect),
      extract_aspect_terms sid terms idx = Except.ok res →
      res.length = terms.length ∧
      ∀ k, k < terms.length →
        sentiment_mapper (terms.getD k default).polarity =
          some ((res.getD k default).sentiment) := by
  intro terms
  induction terms with
  | nil =>
    intro idx res h
    rw [extract_aspect_terms] at h
    cases h
    exact ⟨rfl, by intro k hk; simp at hk⟩
  | cons a rest ih =>
    intro idx res h
    rw [extract_aspect_terms] at h
    cases hm : sentiment_mapper a.polarity with
    | none => rw [hm] at h; exact Except.noConfusion h
    | some z =>
      rw [hm] at h
      cases ht : extract_aspect_terms sid rest (idx + 1) with
      | error e =>
        rw [ht] at h
        exact Except.noConfusion h
      | ok tail =>
        rw [ht] at h
        cases h
        obtain ⟨hlen, hk⟩ := ih (idx + 1) tail ht
        constructor
        · simp [hlen]
        · intro k hk'
          cases k with
          | zero => simpa using hm
          | succ k =>
            simpa using hk k (by simpa using Nat.lt_of_succ_lt_succ hk')

/-- An aspect-term list containing an unknown polarity makes extraction
fail with a `KeyError` on an unknown polarity. -/
theorem extract_error_spec (sid : List Char) :
    ∀ (terms : List AspectAttr) (idx : Nat),
      (∃ a ∈ terms, sentiment_mapper a.polarity = none) →
      ∃ p, extract_aspect_terms sid terms idx =
        Except.error (PyErr.keyError p) ∧ sentiment_mapper p = none := by
  intro terms
  induction terms with
  | nil => intro idx h; simp at h
  | cons a rest ih =>
    intro idx h
    rw [extract_aspect_terms]
    cases hm : sentiment_mapper a.polarity with
    | none => exact ⟨a.polarity, rfl, hm⟩
    | some z =>
      have hrest : ∃ b ∈ rest, sentiment_mapper b.polarity = none := by
        rcases h with ⟨b, hb, hbn⟩
        rcases List.mem_cons.mp hb with rfl | hb'
        · rw [hm] at hbn; exact Option.noConfusion hbn
        · exact ⟨b, hb', hbn⟩
      obtain ⟨p, hp, hpn⟩ := ih (idx + 1) hrest
      refine ⟨p, ?_, hpn⟩
      rw [hp]
      rfl

/-- C7: each aspect term's polarity is mapped through exactly the fixed
table conflict -2, negative -1, neutral 0, positive 1, and an unknown
polarity string causes a lookup error rather than a default value. -/
theorem c7_polarity_table :
    (∀ p, sentiment_mapper p = polarityTable.lookup p) ∧
    (∀ (sid : List Char) (terms : List AspectAttr) (res : List SemAspect),
      extract_aspect_terms sid terms 0 = Except.ok res →
      res.length = terms.length ∧
      ∀ k, k < terms.length →
        polarityTable.lookup (terms.getD k default).polarity =
          some ((res.getD k default).sentiment)) ∧
    (∀ (sid : List Char) (terms : List AspectAttr),
      (∃ a ∈ terms, polarityTable.lookup a.polarity = none) →
      ∃ p, extract_aspect_terms sid terms 0 =
        Except.error (PyErr.keyError p) ∧
        polarityTable.lookup p = none) := by
  refine ⟨sentiment_mapper_eq_table, ?_, ?_⟩
  · intro sid terms res h
    obtain ⟨hlen, hk⟩ := extract_ok_spec sid terms 0 res h
    refine ⟨hlen, ?_⟩
    intro k hk'
    rw [← sentiment_mapper_eq_table]
    exact hk k hk'
  · intro sid terms h
    have h' : ∃ a ∈ terms, sentiment_mapper a.polarity = none := by
      rcases h with ⟨a, ha, han⟩
      exact ⟨a, ha, by rw [sentiment_mapper_eq_table]; exact han⟩
    obtain ⟨p, hp, hpn⟩ := extract_error_spec sid terms 0 h'
    exact ⟨p, hp, by rw [← sentiment_mapper_eq_table]; exact hpn⟩

/-- C7 witness: one positive aspect term extracts with sentiment 1, id
"s10". -/
theorem c7_witness :
    ([SemAspect.mk "s10".toList "cat".toList 1
        [("5".toList, "8".toList)] none] : List SemAspect).length =
      ([AspectAttr.mk "cat".toList "positive".toList "5".toList
        "8".toList] : List AspectAttr).length ∧
    ∀ k, k < ([AspectAttr.mk "cat".toList "positive".toList "5".toList
        "8".toList] : List AspectAttr).length →
      polarityTable.lookup
          (([AspectAttr.mk "cat".toList "positive".toList "5".toList
            "8".toList] : List AspectAttr).getD k default).polarity =
        some ((([SemAspect.mk "s10".toList "cat".toList 1
          [("5".toList, "8".toList)] none] : List SemAspect).getD
            k default).sentiment) :=
  c7_polarity_table.2.1 "s1".toList
    [AspectAttr.mk "cat".toList "positive".toList "5".toList "8".toList]
    [SemAspect.mk "s10".toList "cat".toList 1
      [("5".toList, "8".toList)] none]
    (by decide)

/-! ## C8: tokeniser wrappers -/

/-- C8: each tokeniser wrapper raises an error for non-string input and
returns an ordered token-string sequence for string input. -/
theorem c8_tokeniser_type_check :
    ∀ (v : PyVal) (tok : List Char → List (List Char)),
      (v.isStr = false →
        (∃ m, whitespace v = Except.error (PyErr.valueError m)) ∧
        (∃ m, ark_twokenize tok v = Except.error (PyErr.valueError m))) ∧
      (∀ s, v = PyVal.str s →
        whitespace v = Except.ok (pySplitWs s) ∧
        ark_twokenize tok v = Except.ok (tok s)) := by
  intro v tok
  constructor
  · intro hv
    cases v with
    | str s => simp [PyVal.isStr] at hv
    | int z => exact ⟨⟨_, rfl⟩, ⟨_, rfl⟩⟩
    | noneV => exact ⟨⟨_, rfl⟩, ⟨_, rfl⟩⟩
  · intro s hs
    subst hs
    exact ⟨rfl, rfl⟩

/-- C8 witness: the integer 3 is rejected by both wrappers. -/
theorem c8_witness :
    (∃ m, whitespace (PyVal.int 3) = Except.error (PyErr.valueError m)) ∧
    (∃ m, ark_twokenize (fun _ => []) (PyVal.int 3) =
      Except.error (PyErr.valueError m)) :=
  (c8_tokeniser_type_check (PyVal.int 3) (fun _ => [])).1 (by decide)

/-! ## C9: election record-id computation -/

/-- `dropWhile` skips a leading block whose elements all satisfy the
predicate. -/
theorem dropWhile_append_all {α : Type} {p : α → Bool} (l1 l2 : List α)
    (h : ∀ x ∈ l1, p x = true) :
    (l1 ++ l2).dropWhile p = l2.dropWhile p := by
  induction l1 with
  | nil => simp
  | cons a l ih =>
    simp only [List.cons_append, List.dropWhile_cons, h a (by simp)]
    exact ih (fun x hx => h x (by simp [hx]))

/-- C9 counterexample: for the file name "55.json" the claim predicts the
record id "5" (extension removed, one leading prefix digit stripped), but
`lstrip('5')` removes every leading 5, leaving the empty id. -/
theorem c9_counterexample :
    electionFileId "55.json".toList ≠ "5".toList ∧
    electionFileId "55.json".toList = ([] : List Char) := by
  constructor
  · decide
  · decide

/-- C9 (amended): `rstrip('.json')`/`lstrip('5')` strip character RUNS, not
one extension and one prefix digit; the id equals the filename minus
extension and minus one leading '5' exactly when the bare id is non-empty,
does not itself start with '5', and does not end in one of the characters
'.', 'j', 's', 'o', 'n'. -/
theorem c9_file_id (bare : List Char) (h1 : bare ≠ [])
    (h2 : ∀ c, bare.head? = some c → c ≠ '5')
    (h3 : ∀ c, bare.getLast? = some c →
      (".json".toList).contains c = false) :
    electionFileId ('5' :: bare ++ ".json".toList) = bare := by
  rw [electionFileId, pyRstrip, pyLstrip]
  have hrev : ('5' :: bare ++ ".json".toList).reverse =
      (".json".toList).reverse ++ (bare.reverse ++ ['5']) := by
    simp
  rw [hrev]
  rw [dropWhile_append_all ((".json".toList).reverse) (bare.reverse ++ ['5'])
    (by decide)]
  cases hbr : bare.reverse with
  | nil =>
    exact absurd (by simpa using congrArg List.reverse hbr) h1
  | cons c w =>
    have hlast : bare.getLast? = some c := by
      rw [← List.head?_reverse, hbr]
      rfl
    have hc := h3 c hlast
    rw [List.cons_append, List.dropWhile_cons]
    simp only [hc]
    rw [if_neg (by simp)]
    have hback : ((c :: w) ++ ['5']).reverse = '5' :: bare := by
      have : (c :: w) = bare.reverse := hbr.symm
      rw [this]
      simp
    rw [← List.cons_append, hback]
    rw [List.dropWhile_cons]
    rw [if_pos (by decide)]
    cases hb : bare with
    | nil => exact absurd hb h1
    | cons b tl =>
      have hhead : bare.head? = some b := by rw [hb]; rfl
      have hbne := h2 b hhead
      rw [List.dropWhile_cons]
      rw [if_neg (by simp [hbne])]

/-- C9 witness: a well-behaved filename round-trips: prefix '5' and the
".json" extension are removed, nothing else. -/
theorem c9_witness :
    electionFileId ('5' :: "81211671026352128".toList ++ ".json".toList) =
      "81211671026352128".toList :=
  c9_file_id "81211671026352128".toList (by decide) (by decide) (by decide)

/-! ## C10: additional items with an empty entity list -/

/-- With an empty `target_ids` list, the additional-item loop returns
nothing when every item is allow-list-skipped and otherwise stops with an
error (`max` of the empty id list, or the fuzzy mismatch itself). -/
theorem addLoop_nil_ids (tid content : List Char) :
    ∀ (pairs : List (List Char × SentVal)) (acc : List Target),
      ((∀ pr ∈ pairs,
          fuzzy_target_match tid content pr.1 = Except.ok none) →
        addLoop tid content pairs [] acc = Except.ok ([], acc)) ∧
      (∀ r, addLoop tid content pairs [] acc = Except.ok r →
        r = ([], acc) ∧ ∀ pr ∈ pairs,
          fuzzy_target_match tid content pr.1 = Except.ok none) := by
  intro pairs
  induction pairs with
  | nil =>
    intro acc
    constructor
    · intro _
      rfl
    · intro r h
      cases h
      exact ⟨rfl, by intro pr hpr; simp at hpr⟩
  | cons pr rest ih =>
    intro acc
    obtain ⟨t0, s0⟩ := pr
    constructor
    · intro hall
      have hf := hall (t0, s0) (by simp)
      rw [addLoop, hf]
      exact (ih acc).1 (fun q hq => hall q (by simp [hq]))
    · intro r h
      rw [addLoop] at h
      cases hf : fuzzy_target_match tid content t0 with
      | error e => rw [hf] at h; exact Except.noConfusion h
      | ok m =>
        rw [hf] at h
        cases m with
        | none =>
          obtain ⟨hr, hrest⟩ := (ih acc).2 r h
          refine ⟨hr, ?_⟩
          intro q hq
          rcases List.mem_cons.mp hq with rfl | hq'
          · exact hf
          · exact hrest q hq'
        | some ms => exact Except.noConfusion h

/-- C10 counterexample: an allow-listed tweet with an empty entity list and
a non-empty `additional_items` dict does NOT fail: the lone additional item
is skipped through the allow-list and `parse_tweet` returns no Targets. -/
theorem c10_counterexample :
    parse_tweet false true (TweetData.mk "aa".toList [])
      (AnnoData.mk [] (AdditionalItems.dict [("zz".toList, SentVal.num 1)]))
      "81211671026352128".toList = Except.ok [] := by
  decide

/-- C10 (amended): with `include_additional` on, an empty entity list and a
dict of additional items, `parse_tweet` returns successfully (with no
Targets) exactly when every additional item is allow-list-skipped; any item
that is not skipped makes the parse fail (unique fuzzy matches hit `max` of
the empty entity-id list, non-allow-listed mismatches raise in the
resolver), so Targets are never produced for the additional items. -/
theorem c10_empty_entities (include_dnr : Bool) (tweet : TweetData)
    (anno : AnnoData) (tid : List Char)
    (pairs : List (List Char × SentVal))
    (hent : tweet.entities = [])
    (hadd : anno.additional_items = AdditionalItems.dict pairs) :
    ((∀ pr ∈ pairs,
        fuzzy_target_match tid tweet.content pr.1 = Except.ok none) →
      parse_tweet include_dnr true tweet anno tid = Except.ok []) ∧
    (∀ res, parse_tweet include_dnr true tweet anno tid = Except.ok res →
      res = [] ∧ ∀ pr ∈ pairs,
        fuzzy_target_match tid tweet.content pr.1 = Except.ok none) := by
  have hstep : parse_tweet include_dnr true tweet anno tid =
      (do
        let r' ← addLoop tid tweet.content pairs [] []
        Except.ok r'.2) := by
    rw [parse_tweet, hent, hadd]
    rfl
  constructor
  · intro hall
    rw [hstep, (addLoop_nil_ids tid tweet.content pairs []).1 hall]
    rfl
  · intro res h
    rw [hstep] at h
    cases ha : addLoop tid tweet.content pairs [] [] with
    | error e => rw [ha] at h; exact Except.noConfusion h
    | ok r' =>
      rw [ha] at h
      cases h
      obtain ⟨hr, hrest⟩ := (addLoop_nil_ids tid tweet.content pairs []).2
        r' ha
      rw [hr]
      exact ⟨rfl, hrest⟩

/-- C10 witness: the amended claim at a concrete allow-listed tweet whose
only additional item is skipped. -/
theorem c10_witness :
    parse_tweet false true (TweetData.mk "bb".toList [])
      (AnnoData.mk [] (AdditionalItems.dict [("qq".toList, SentVal.num 0)]))
      "78689580104290305".toList = Except.ok [] :=
  (c10_empty_entities false (TweetData.mk "bb".toList [])
    (AnnoData.mk [] (AdditionalItems.dict [("qq".toList, SentVal.num 0)]))
    "78689580104290305".toList [("qq".toList, SentVal.num 0)] rfl rfl).1
    (by decide)

end Bella
